import Mathlib

/-!
# Register map of `stm32f401xx.h`

The header consists of four base-address constants, two register-block
structure declarations (`GPIO_RegDef_t`, `RCC_RegDef_t`) and four pointer
views (`GPIOA`, `GPIOB`, `GPIOC`, `RCC`).  The declarations are embedded as
data, and the C rules for placing the members of a structure are embedded as
functions over that data, parameterised by the properties of `int` on the
compilation target.
-/

namespace Stm32f401xx

/-! ## C declarations as data -/

/-- Base type of a member.  Every member of both structures is an `int`. -/
inductive CType where
  | int
  deriving DecidableEq, Repr

/-- One member declaration: `volatile int NAME;` has `arrayLen = none`,
`volatile int NAME[n];` has `arrayLen = some n`. -/
structure Member where
  name : String
  ty : CType
  isVolatile : Bool
  arrayLen : Option Nat
  deriving DecidableEq, Repr

/-- A `typedef struct { ... } NAME;` declaration: the members in declaration
order. -/
structure StructDecl where
  name : String
  members : List Member
  deriving DecidableEq, Repr

/-- A constant pointer `((T*) ADDR)`. -/
structure Ptr where
  pointee : StructDecl
  addr : Nat
  deriving DecidableEq, Repr

/-- Modelled from the spec: the header fixes no width for `int`; size,
alignment and byte width come from the compiler and are parameters here.  The
spec speaks of 32-bit registers, which is `sizeofInt = 4` with `charBit = 8`. -/
structure Target where
  sizeofInt : Nat
  alignofInt : Nat
  charBit : Nat
  deriving DecidableEq, Repr

/-- Modelled from the spec: the `int` of the Cortex-M4 core the header is
written for, four bytes of eight bits, aligned to four bytes. -/
def stm32f401 : Target := { sizeofInt := 4, alignofInt := 4, charBit := 8 }

/-! ## The header -/

def GPIOA_BASEADDR : Nat := 0x40020000

def GPIOB_BASEADDR : Nat := 0x40020400

def GPIOC_BASEADDR : Nat := 0x40020800

def RCC_BASEADDR : Nat := 0x40023800

/-- A scalar member `volatile int NAME;`. -/
def vint (name : String) : Member :=
  { name := name, ty := CType.int, isVolatile := true, arrayLen := none }

/-- An array member `volatile int NAME[n];`. -/
def vintArr (name : String) (n : Nat) : Member :=
  { name := name, ty := CType.int, isVolatile := true, arrayLen := some n }

def GPIO_RegDef_t : StructDecl :=
  { name := "GPIO_RegDef_t"
    members :=
      [ vint "MODER",
        vint "OTYPER",
        vint "OSPEEDR",
        vint "PUPDR",
        vint "IDR",
        vint "ODR",
        vint "BSRR",
        vint "LCKR",
        vintArr "AFR" 2 ] }

def GPIOA : Ptr := { pointee := GPIO_RegDef_t, addr := GPIOA_BASEADDR }

def GPIOB : Ptr := { pointee := GPIO_RegDef_t, addr := GPIOB_BASEADDR }

def GPIOC : Ptr := { pointee := GPIO_RegDef_t, addr := GPIOC_BASEADDR }

def RCC_RegDef_t : StructDecl :=
  { name := "RCC_RegDef_t"
    members :=
      [ vint "CR",
        vint "PLLCFGR",
        vint "CFGR",
        vint "CIR",
        vint "AHB1RSTR",
        vint "AHB2RSTR",
        vintArr "RESERVED0" 2,
        vint "APB1RSTR",
        vint "APB2RSTR",
        vintArr "RESERVED1" 2,
        vint "AHB1ENR",
        vint "AHB2ENR",
        vintArr "RESERVED2" 2,
        vint "APB1ENR",
        vint "APB2ENR" ] }

def RCC : Ptr := { pointee := RCC_RegDef_t, addr := RCC_BASEADDR }

/-! ## Structure layout -/

/-- Smallest multiple of `a` that is at least `n`. -/
def alignUp (n a : Nat) : Nat := (n + (a - 1)) / a * a

def sizeofType (t : Target) : CType → Nat
  | CType.int => t.sizeofInt

def alignofType (t : Target) : CType → Nat
  | CType.int => t.alignofInt

/-- Number of cells of a member: one for a scalar, `n` for an array of `n`. -/
def Member.count (m : Member) : Nat := m.arrayLen.getD 1

def sizeofMember (t : Target) (m : Member) : Nat := m.count * sizeofType t m.ty

/-- Place the members one after the other from byte `cur` on: each member
goes to the next byte at or after `cur` that its type's alignment allows, and
the next member is placed from its end on. -/
def layoutFrom (t : Target) : Nat → List Member → List (Member × Nat)
  | _, [] => []
  | cur, m :: ms =>
    (m, alignUp cur (alignofType t m.ty)) ::
      layoutFrom t (alignUp cur (alignofType t m.ty) + sizeofMember t m) ms

/-- First byte after the last member placed from `cur` on. -/
def endFrom (t : Target) : Nat → List Member → Nat
  | cur, [] => cur
  | cur, m :: ms => endFrom t (alignUp cur (alignofType t m.ty) + sizeofMember t m) ms

/-- The members of a structure with their byte offsets. -/
def layout (t : Target) (s : StructDecl) : List (Member × Nat) :=
  layoutFrom t 0 s.members

/-- Alignment of a structure: the strictest alignment of its members. -/
def alignofStruct (t : Target) (s : StructDecl) : Nat :=
  (s.members.map fun m => alignofType t m.ty).foldl max 1

/-- The value of `sizeof(s)`: the end of the last member, rounded up to the
alignment of the structure. -/
def sizeofStruct (t : Target) (s : StructDecl) : Nat :=
  alignUp (endFrom t 0 s.members) (alignofStruct t s)

/-- The layout entry of the member called `name`. -/
def findMember (t : Target) (s : StructDecl) (name : String) : Option (Member × Nat) :=
  (layout t s).find? fun e => e.1.name == name

/-- The value of `offsetof(s, name)`. -/
def offsetOf (t : Target) (s : StructDecl) (name : String) : Option Nat :=
  (findMember t s name).map Prod.snd

/-- A register of a block: `p->NAME` for a scalar member, `p->NAME[i]` for a
cell of an array member. -/
inductive Reg where
  | field (name : String)
  | elem (name : String) (i : Nat)
  deriving DecidableEq, Repr

/-- Byte offset of a register in its block; `none` when the structure has no
such scalar member, or no such array member with more than `i` cells. -/
def regOffset (t : Target) (s : StructDecl) : Reg → Option Nat
  | Reg.field name =>
    match findMember t s name with
    | some (m, off) => if m.arrayLen = none then some off else none
    | none => none
  | Reg.elem name i =>
    match findMember t s name with
    | some (m, off) =>
      match m.arrayLen with
      | some n => if i < n then some (off + i * sizeofType t m.ty) else none
      | none => none
    | none => none

/-- Address of `&p->NAME` or `&p->NAME[i]`. -/
def regAddr (t : Target) (p : Ptr) (r : Reg) : Option Nat :=
  (regOffset t p.pointee r).map fun off => p.addr + off

/-- Whether byte offset `b` lies inside the member placed at `e.2`. -/
def covers (t : Target) (e : Member × Nat) (b : Nat) : Bool :=
  decide (e.2 ≤ b) && decide (b < e.2 + sizeofMember t e.1)

/-- All members whose bytes include offset `b`. -/
def membersAt (t : Target) (s : StructDecl) (b : Nat) : List String :=
  ((layout t s).filter fun e => covers t e b).map fun e => e.1.name

/-- The registers of a member in order, each with its width in bits. -/
def memberCells (t : Target) (m : Member) : List (Reg × Nat) :=
  match m.arrayLen with
  | none => [(Reg.field m.name, t.charBit * sizeofType t m.ty)]
  | some n => (List.range n).map fun i => (Reg.elem m.name i, t.charBit * sizeofType t m.ty)

/-- The registers of a block in declaration order, each with its width in
bits. -/
def cells (t : Target) (s : StructDecl) : List (Reg × Nat) :=
  s.members.flatMap (memberCells t)

/-- The half-open byte range `[addr, addr + sizeof)` a view spans. -/
def viewRange (t : Target) (p : Ptr) : Nat × Nat :=
  (p.addr, p.addr + sizeofStruct t p.pointee)

def disjointRanges (a b : Nat × Nat) : Bool :=
  decide (a.2 ≤ b.1) || decide (b.2 ≤ a.1)

/-- The four views the header defines. -/
def views : List Ptr := [GPIOA, GPIOB, GPIOC, RCC]

/-! ## Edits of a declaration, for the role of the reserved members -/

/-- The declaration without the member called `name`. -/
def removeMember (s : StructDecl) (name : String) : StructDecl :=
  { s with members := s.members.filter fun m => m.name != name }

/-- The declaration with the array member called `name` given `n` cells. -/
def resizeMember (s : StructDecl) (name : String) (n : Nat) : StructDecl :=
  { s with members := s.members.map fun m =>
      if m.name == name then { m with arrayLen := some n } else m }

/-- Names of the members declared after the member called `name`. -/
def membersAfter (s : StructDecl) (name : String) : List String :=
  ((s.members.dropWhile fun m => m.name != name).drop 1).map fun m => m.name

/-- The byte offsets the member called `name` occupies, in order. -/
def memberBytes (t : Target) (s : StructDecl) (name : String) : Option (List Nat) :=
  (findMember t s name).map fun e => List.range' e.2 (sizeofMember t e.1)

/-- Every register of every view: the view and the register in its block. -/
def allRegs (t : Target) : List (Ptr × Reg) :=
  views.flatMap fun p => (cells t p.pointee).map fun c => (p, c.1)

/-- The members tile the block: they are placed in declaration order from
offset 0, offsets strictly increase and are multiples of four, every member
starts where the one before it ends, and the last one ends at `sizeof`. -/
def Tiles (t : Target) (s : StructDecl) : Prop :=
  (layout t s).map Prod.fst = s.members ∧
  ((layout t s).map Prod.snd).Pairwise (fun a b => a < b) ∧
  (∀ e ∈ layout t s, e.2 % 4 = 0) ∧
  (layout t s).head?.map Prod.snd = some 0 ∧
  (layout t s).Chain' (fun a b => a.2 + sizeofMember t a.1 = b.2) ∧
  (layout t s).getLast?.map (fun e => e.2 + sizeofMember t e.1) = some (sizeofStruct t s)

/-! ## Placement without padding, the reference the layout is compared with -/

/-- Place the members back to back from byte `cur` on, `sz` bytes a cell. -/
def packedFrom (sz : Nat) : Nat → List Member → List (Member × Nat)
  | _, [] => []
  | cur, m :: ms => (m, cur) :: packedFrom sz (cur + m.count * sz) ms

/-- First byte after members placed back to back from `cur` on. -/
def packedEnd (sz : Nat) : Nat → List Member → Nat
  | cur, [] => cur
  | cur, m :: ms => packedEnd sz (cur + m.count * sz) ms

/-! ## General facts about the layout -/

theorem alignUp_of_dvd {n a : Nat} (ha : 0 < a) (h : a ∣ n) : alignUp n a = n := by
  obtain ⟨k, rfl⟩ := h
  unfold alignUp
  have hk : (a * k + (a - 1)) / a = k := by
    rw [Nat.mul_add_div ha, Nat.div_eq_of_lt (by omega)]
    rfl
  rw [hk, Nat.mul_comm]

theorem alignUp_zero (a : Nat) : alignUp 0 a = 0 := by
  unfold alignUp
  rcases Nat.eq_zero_or_pos a with h | h
  · subst h; rfl
  · rw [Nat.zero_add, Nat.div_eq_of_lt (by omega), Nat.zero_mul]

theorem sizeofType_eq (t : Target) (c : CType) : sizeofType t c = t.sizeofInt := by
  cases c; rfl

theorem alignofType_eq (t : Target) (c : CType) : alignofType t c = t.alignofInt := by
  cases c; rfl

theorem alignofInt_pos {t : Target} (h4 : t.sizeofInt = 4)
    (hal : t.alignofInt ∣ t.sizeofInt) : 0 < t.alignofInt :=
  Nat.pos_of_dvd_of_pos hal (by omega)

/-- When the alignment of `int` divides its size, no padding is inserted. -/
theorem layoutFrom_eq_packed (t : Target) (ha : 0 < t.alignofInt)
    (hal : t.alignofInt ∣ t.sizeofInt) :
    ∀ (ms : List Member) (cur : Nat), t.alignofInt ∣ cur →
      layoutFrom t cur ms = packedFrom t.sizeofInt cur ms
  | [], _, _ => rfl
  | m :: ms, cur, h => by
    simp only [layoutFrom, packedFrom, alignofType_eq, alignUp_of_dvd ha h, sizeofMember,
      sizeofType_eq]
    rw [layoutFrom_eq_packed t ha hal ms _ (Dvd.dvd.add h (Dvd.dvd.mul_left hal _))]

theorem endFrom_eq_packed (t : Target) (ha : 0 < t.alignofInt)
    (hal : t.alignofInt ∣ t.sizeofInt) :
    ∀ (ms : List Member) (cur : Nat), t.alignofInt ∣ cur →
      endFrom t cur ms = packedEnd t.sizeofInt cur ms
  | [], _, _ => rfl
  | m :: ms, cur, h => by
    simp only [endFrom, packedEnd, alignofType_eq, alignUp_of_dvd ha h, sizeofMember,
      sizeofType_eq]
    rw [endFrom_eq_packed t ha hal ms _ (Dvd.dvd.add h (Dvd.dvd.mul_left hal _))]

theorem dvd_packedEnd (sz a : Nat) (hal : a ∣ sz) :
    ∀ (ms : List Member) (cur : Nat), a ∣ cur → a ∣ packedEnd sz cur ms
  | [], _, h => h
  | m :: ms, cur, h => by
    simp only [packedEnd]
    exact dvd_packedEnd sz a hal ms _ (Dvd.dvd.add h (Dvd.dvd.mul_left hal _))

theorem foldl_max_align (t : Target) (ha : 0 < t.alignofInt) :
    ∀ (ms : List Member) (b : Nat), (b = 1 ∨ b = t.alignofInt) →
      ((ms.map fun m => alignofType t m.ty).foldl max b = 1 ∨
        (ms.map fun m => alignofType t m.ty).foldl max b = t.alignofInt)
  | [], _, h => h
  | m :: ms, b, h => by
    simp only [List.map_cons, List.foldl_cons, alignofType_eq]
    apply foldl_max_align t ha ms
    right
    rcases h with h | h <;> omega

theorem alignofStruct_dvd (t : Target) (ha : 0 < t.alignofInt) (s : StructDecl) :
    alignofStruct t s ∣ t.alignofInt := by
  rcases foldl_max_align t ha s.members 1 (Or.inl rfl) with h | h
  · unfold alignofStruct; rw [h]; exact one_dvd _
  · unfold alignofStruct; rw [h]

theorem alignofStruct_pos (t : Target) (ha : 0 < t.alignofInt) (s : StructDecl) :
    0 < alignofStruct t s := by
  rcases foldl_max_align t ha s.members 1 (Or.inl rfl) with h | h
  · unfold alignofStruct; rw [h]; exact Nat.one_pos
  · unfold alignofStruct; rw [h]; exact ha

/-- With a four-byte `int` whose alignment divides four, the members lie back
to back. -/
theorem layout_eq_packed (t : Target) (h4 : t.sizeofInt = 4)
    (hal : t.alignofInt ∣ t.sizeofInt) (s : StructDecl) :
    layout t s = packedFrom 4 0 s.members := by
  unfold layout
  rw [layoutFrom_eq_packed t (alignofInt_pos h4 hal) hal _ _ (dvd_zero _), h4]

theorem sizeofStruct_eq_packed (t : Target) (h4 : t.sizeofInt = 4)
    (hal : t.alignofInt ∣ t.sizeofInt) (s : StructDecl) :
    sizeofStruct t s = packedEnd 4 0 s.members := by
  have ha := alignofInt_pos h4 hal
  unfold sizeofStruct
  rw [endFrom_eq_packed t ha hal _ _ (dvd_zero _), h4]
  apply alignUp_of_dvd (alignofStruct_pos t ha s)
  apply Dvd.dvd.trans (alignofStruct_dvd t ha s)
  exact dvd_packedEnd 4 _ (h4 ▸ hal) _ _ (dvd_zero _)

theorem sizeofMember_eq (t : Target) (h4 : t.sizeofInt = 4) (m : Member) :
    sizeofMember t m = m.count * 4 := by
  rw [sizeofMember, sizeofType_eq, h4]

theorem findMember_eq (t : Target) (h4 : t.sizeofInt = 4)
    (hal : t.alignofInt ∣ t.sizeofInt) (s : StructDecl) (name : String) :
    findMember t s name = findMember stm32f401 s name := by
  unfold findMember
  rw [layout_eq_packed t h4 hal, layout_eq_packed stm32f401 rfl (by decide)]

theorem offsetOf_eq (t : Target) (h4 : t.sizeofInt = 4)
    (hal : t.alignofInt ∣ t.sizeofInt) (s : StructDecl) (name : String) :
    offsetOf t s name = offsetOf stm32f401 s name := by
  unfold offsetOf
  rw [findMember_eq t h4 hal]

theorem regOffset_eq (t : Target) (h4 : t.sizeofInt = 4)
    (hal : t.alignofInt ∣ t.sizeofInt) (s : StructDecl) (r : Reg) :
    regOffset t s r = regOffset stm32f401 s r := by
  cases r
  · simp only [regOffset, findMember_eq t h4 hal]
  · simp only [regOffset, findMember_eq t h4 hal, sizeofType_eq, h4]
    rfl

theorem regAddr_eq (t : Target) (h4 : t.sizeofInt = 4)
    (hal : t.alignofInt ∣ t.sizeofInt) (p : Ptr) (r : Reg) :
    regAddr t p r = regAddr stm32f401 p r := by
  unfold regAddr
  rw [regOffset_eq t h4 hal]

theorem membersAt_eq (t : Target) (h4 : t.sizeofInt = 4)
    (hal : t.alignofInt ∣ t.sizeofInt) (s : StructDecl) (b : Nat) :
    membersAt t s b = membersAt stm32f401 s b := by
  unfold membersAt covers
  simp only [layout_eq_packed t h4 hal, layout_eq_packed stm32f401 rfl (by decide),
    sizeofMember_eq t h4, sizeofMember_eq stm32f401 rfl]

theorem sizeofStruct_eq (t : Target) (h4 : t.sizeofInt = 4)
    (hal : t.alignofInt ∣ t.sizeofInt) (s : StructDecl) :
    sizeofStruct t s = sizeofStruct stm32f401 s := by
  rw [sizeofStruct_eq_packed t h4 hal, sizeofStruct_eq_packed stm32f401 rfl (by decide)]

theorem cells_eq (t : Target) (h4 : t.sizeofInt = 4) (h8 : t.charBit = 8)
    (s : StructDecl) : cells t s = cells stm32f401 s := by
  unfold cells memberCells
  simp only [sizeofType_eq, h4, h8]
  rfl

theorem memberBytes_eq (t : Target) (h4 : t.sizeofInt = 4)
    (hal : t.alignofInt ∣ t.sizeofInt) (s : StructDecl) (name : String) :
    memberBytes t s name = memberBytes stm32f401 s name := by
  unfold memberBytes
  simp only [findMember_eq t h4 hal, sizeofMember_eq t h4, sizeofMember_eq stm32f401 rfl]

theorem tiles_iff (t : Target) (h4 : t.sizeofInt = 4)
    (hal : t.alignofInt ∣ t.sizeofInt) (s : StructDecl) :
    Tiles t s ↔ Tiles stm32f401 s := by
  unfold Tiles
  simp only [layout_eq_packed t h4 hal, layout_eq_packed stm32f401 rfl (by decide),
    sizeofMember_eq t h4, sizeofMember_eq stm32f401 rfl, sizeofStruct_eq t h4 hal]

theorem mem_of_mem_layoutFrom (t : Target) :
    ∀ (ms : List Member) (cur : Nat) (e : Member × Nat), e ∈ layoutFrom t cur ms → e.1 ∈ ms
  | [], _, _, h => by simp [layoutFrom] at h
  | m :: ms, cur, e, h => by
    simp only [layoutFrom, List.mem_cons] at h
    rcases h with h | h
    · subst h; exact List.mem_cons_self _ _
    · exact List.mem_cons_of_mem _ (mem_of_mem_layoutFrom t ms _ e h)

/-- A found member is a member of the declaration and carries the name asked. -/
theorem findMember_some (t : Target) (s : StructDecl) (name : String) (e : Member × Nat)
    (h : findMember t s name = some e) : e.1 ∈ s.members ∧ e.1.name = name := by
  unfold findMember at h
  refine ⟨mem_of_mem_layoutFrom t _ _ e (List.mem_of_find?_eq_some h), ?_⟩
  have := List.find?_some h
  simpa using this

/-- A register with an offset is one of the registers of the block. -/
theorem regOffset_mem_cells (t : Target) (s : StructDecl) (r : Reg) (o : Nat)
    (h : regOffset t s r = some o) : r ∈ (cells t s).map Prod.fst := by
  cases r with
  | field name =>
    simp only [regOffset] at h
    cases hf : findMember t s name with
    | none => rw [hf] at h; simp at h
    | some e =>
      obtain ⟨m, off⟩ := e
      rw [hf] at h
      obtain ⟨hm, hn⟩ := findMember_some t s name _ hf
      simp only at hm hn h
      by_cases ha : m.arrayLen = none
      · simp only [cells, List.mem_map, List.mem_flatMap]
        refine ⟨(Reg.field name, t.charBit * sizeofType t m.ty), ⟨m, hm, ?_⟩, rfl⟩
        simp [memberCells, ha, hn]
      · simp [ha] at h
  | elem name i =>
    simp only [regOffset] at h
    cases hf : findMember t s name with
    | none => rw [hf] at h; simp at h
    | some e =>
      obtain ⟨m, off⟩ := e
      rw [hf] at h
      obtain ⟨hm, hn⟩ := findMember_some t s name _ hf
      simp only at hm hn h
      cases ha : m.arrayLen with
      | none => rw [ha] at h; simp at h
      | some n =>
        rw [ha] at h
        by_cases hi : i < n
        · simp only [cells, List.mem_map, List.mem_flatMap]
          refine ⟨(Reg.elem name i, t.charBit * sizeofType t m.ty), ⟨m, hm, ?_⟩, rfl⟩
          simp only [memberCells, ha, List.mem_map, List.mem_range]
          exact ⟨i, hi, by rw [hn]⟩
        · simp [hi] at h

theorem mem_allRegs (t : Target) (p : Ptr) (hp : p ∈ views) (r : Reg) (a : Nat)
    (h : regAddr t p r = some a) : (p, r) ∈ allRegs t := by
  unfold regAddr at h
  cases ho : regOffset t p.pointee r with
  | none => rw [ho] at h; simp at h
  | some o =>
    have hc := regOffset_mem_cells t p.pointee r o ho
    simp only [List.mem_map] at hc
    obtain ⟨c, hc, rfl⟩ := hc
    simp only [allRegs, List.mem_flatMap, List.mem_map]
    exact ⟨p, hp, c, hc, rfl⟩

/-! ## Field offsets -/

/-- C1: with a four-byte `int` placed in declaration order without padding
(its alignment divides its size), every register of `GPIO_RegDef_t` lies at
its documented offset: MODER 0x00, OTYPER 0x04, OSPEEDR 0x08, PUPDR 0x0C,
IDR 0x10, ODR 0x14, BSRR 0x18, LCKR 0x1C, AFR[0] 0x20 and AFR[1] 0x24. -/
theorem gpio_register_offsets (t : Target) (h4 : t.sizeofInt = 4)
    (hal : t.alignofInt ∣ t.sizeofInt) :
    regOffset t GPIO_RegDef_t (Reg.field "MODER") = some 0x00 ∧
    regOffset t GPIO_RegDef_t (Reg.field "OTYPER") = some 0x04 ∧
    regOffset t GPIO_RegDef_t (Reg.field "OSPEEDR") = some 0x08 ∧
    regOffset t GPIO_RegDef_t (Reg.field "PUPDR") = some 0x0C ∧
    regOffset t GPIO_RegDef_t (Reg.field "IDR") = some 0x10 ∧
    regOffset t GPIO_RegDef_t (Reg.field "ODR") = some 0x14 ∧
    regOffset t GPIO_RegDef_t (Reg.field "BSRR") = some 0x18 ∧
    regOffset t GPIO_RegDef_t (Reg.field "LCKR") = some 0x1C ∧
    regOffset t GPIO_RegDef_t (Reg.elem "AFR" 0) = some 0x20 ∧
    regOffset t GPIO_RegDef_t (Reg.elem "AFR" 1) = some 0x24 := by
  simp only [regOffset_eq t h4 hal]
  decide

theorem gpio_register_offsets_witness :
    stm32f401.sizeofInt = 4 ∧ stm32f401.alignofInt ∣ stm32f401.sizeofInt ∧
    regOffset stm32f401 GPIO_RegDef_t (Reg.field "ODR") = some 0x14 ∧
    regOffset stm32f401 GPIO_RegDef_t (Reg.elem "AFR" 1) = some 0x24 :=
  ⟨rfl, by decide,
    (gpio_register_offsets stm32f401 rfl (by decide)).2.2.2.2.2.1,
    (gpio_register_offsets stm32f401 rfl (by decide)).2.2.2.2.2.2.2.2.2⟩

/-- C2: with a four-byte `int` placed in declaration order without padding,
every named register of `RCC_RegDef_t` lies at its documented offset: CR 0x00,
PLLCFGR 0x04, CFGR 0x08, CIR 0x0C, AHB1RSTR 0x10, AHB2RSTR 0x14, APB1RSTR
0x20, APB2RSTR 0x24, AHB1ENR 0x30, AHB2ENR 0x34, APB1ENR 0x40 and APB2ENR
0x44. -/
theorem rcc_register_offsets (t : Target) (h4 : t.sizeofInt = 4)
    (hal : t.alignofInt ∣ t.sizeofInt) :
    regOffset t RCC_RegDef_t (Reg.field "CR") = some 0x00 ∧
    regOffset t RCC_RegDef_t (Reg.field "PLLCFGR") = some 0x04 ∧
    regOffset t RCC_RegDef_t (Reg.field "CFGR") = some 0x08 ∧
    regOffset t RCC_RegDef_t (Reg.field "CIR") = some 0x0C ∧
    regOffset t RCC_RegDef_t (Reg.field "AHB1RSTR") = some 0x10 ∧
    regOffset t RCC_RegDef_t (Reg.field "AHB2RSTR") = some 0x14 ∧
    regOffset t RCC_RegDef_t (Reg.field "APB1RSTR") = some 0x20 ∧
    regOffset t RCC_RegDef_t (Reg.field "APB2RSTR") = some 0x24 ∧
    regOffset t RCC_RegDef_t (Reg.field "AHB1ENR") = some 0x30 ∧
    regOffset t RCC_RegDef_t (Reg.field "AHB2ENR") = some 0x34 ∧
    regOffset t RCC_RegDef_t (Reg.field "APB1ENR") = some 0x40 ∧
    regOffset t RCC_RegDef_t (Reg.field "APB2ENR") = some 0x44 := by
  simp only [regOffset_eq t h4 hal]
  decide

theorem rcc_register_offsets_witness :
    stm32f401.sizeofInt = 4 ∧ stm32f401.alignofInt ∣ stm32f401.sizeofInt ∧
    regOffset stm32f401 RCC_RegDef_t (Reg.field "CR") = some 0x00 ∧
    regOffset stm32f401 RCC_RegDef_t (Reg.field "APB2ENR") = some 0x44 :=
  ⟨rfl, by decide,
    (rcc_register_offsets stm32f401 rfl (by decide)).1,
    (rcc_register_offsets stm32f401 rfl (by decide)).2.2.2.2.2.2.2.2.2.2.2⟩

/-- C3: in the clock-control block the only member whose bytes include offset
0x30 is AHB1ENR, and `&RCC->AHB1ENR` is `RCC_BASEADDR + 0x30`, which is
0x40023830. -/
theorem rcc_offset_0x30_is_AHB1ENR (t : Target) (h4 : t.sizeofInt = 4)
    (hal : t.alignofInt ∣ t.sizeofInt) :
    membersAt t RCC_RegDef_t 0x30 = ["AHB1ENR"] ∧
    regAddr t RCC (Reg.field "AHB1ENR") = some (RCC_BASEADDR + 0x30) ∧
    RCC_BASEADDR + 0x30 = 0x40023830 := by
  rw [membersAt_eq t h4 hal, regAddr_eq t h4 hal]
  decide

theorem rcc_offset_0x30_is_AHB1ENR_witness :
    stm32f401.sizeofInt = 4 ∧ stm32f401.alignofInt ∣ stm32f401.sizeofInt ∧
    membersAt stm32f401 RCC_RegDef_t 0x30 = ["AHB1ENR"] ∧
    regAddr stm32f401 RCC (Reg.field "AHB1ENR") = some (RCC_BASEADDR + 0x30) ∧
    RCC_BASEADDR + 0x30 = 0x40023830 :=
  ⟨rfl, by decide, rcc_offset_0x30_is_AHB1ENR stm32f401 rfl (by decide)⟩

/-! ## Base addresses -/

/-- C4: the base-address constants are 0x40020000 (GPIOA), 0x40020400
(GPIOB), 0x40020800 (GPIOC) and 0x40023800 (RCC); the views GPIOA, GPIOB,
GPIOC and RCC point at exactly these addresses, the first three as
`GPIO_RegDef_t` and the last as `RCC_RegDef_t`; and whatever the size and
alignment of `int`, the first register of each view lies at that address. -/
theorem base_addresses (t : Target) :
    GPIOA_BASEADDR = 0x40020000 ∧ GPIOB_BASEADDR = 0x40020400 ∧
    GPIOC_BASEADDR = 0x40020800 ∧ RCC_BASEADDR = 0x40023800 ∧
    GPIOA.addr = GPIOA_BASEADDR ∧ GPIOB.addr = GPIOB_BASEADDR ∧
    GPIOC.addr = GPIOC_BASEADDR ∧ RCC.addr = RCC_BASEADDR ∧
    GPIOA.pointee = GPIO_RegDef_t ∧ GPIOB.pointee = GPIO_RegDef_t ∧
    GPIOC.pointee = GPIO_RegDef_t ∧ RCC.pointee = RCC_RegDef_t ∧
    regAddr t GPIOA (Reg.field "MODER") = some 0x40020000 ∧
    regAddr t GPIOB (Reg.field "MODER") = some 0x40020400 ∧
    regAddr t GPIOC (Reg.field "MODER") = some 0x40020800 ∧
    regAddr t RCC (Reg.field "CR") = some 0x40023800 := by
  refine ⟨rfl, rfl, rfl, rfl, rfl, rfl, rfl, rfl, rfl, rfl, rfl, rfl, ?_, ?_, ?_, ?_⟩ <;>
    simp [regAddr, regOffset, findMember, layout, layoutFrom, alignUp_zero, GPIOA, GPIOB,
      GPIOC, RCC, GPIO_RegDef_t, RCC_RegDef_t, vint, GPIOA_BASEADDR, GPIOB_BASEADDR,
      GPIOC_BASEADDR, RCC_BASEADDR]

/-- C5: port B lies 0x400 and port C 0x800 above port A, the three GPIO base
addresses are pairwise distinct, and the RCC base differs from all three. -/
theorem base_address_spacing :
    GPIOB_BASEADDR = GPIOA_BASEADDR + 0x400 ∧
    GPIOC_BASEADDR = GPIOA_BASEADDR + 0x800 ∧
    GPIOA_BASEADDR ≠ GPIOB_BASEADDR ∧ GPIOA_BASEADDR ≠ GPIOC_BASEADDR ∧
    GPIOB_BASEADDR ≠ GPIOC_BASEADDR ∧
    RCC_BASEADDR ≠ GPIOA_BASEADDR ∧ RCC_BASEADDR ≠ GPIOB_BASEADDR ∧
    RCC_BASEADDR ≠ GPIOC_BASEADDR := by
  decide

/-! ## Shape of the GPIO block -/

/-- C7: the GPIO block is exactly ten registers, in the order MODER, OTYPER,
OSPEEDR, PUPDR, IDR, ODR, BSRR, LCKR, AFR[0], AFR[1], and with a four-byte
`int` of eight-bit bytes every one of them is 32 bits wide. -/
theorem gpio_block_registers (t : Target) (h4 : t.sizeofInt = 4) (h8 : t.charBit = 8) :
    (cells t GPIO_RegDef_t).map Prod.fst =
      [Reg.field "MODER", Reg.field "OTYPER", Reg.field "OSPEEDR", Reg.field "PUPDR",
       Reg.field "IDR", Reg.field "ODR", Reg.field "BSRR", Reg.field "LCKR",
       Reg.elem "AFR" 0, Reg.elem "AFR" 1] ∧
    (cells t GPIO_RegDef_t).length = 10 ∧
    ∀ c ∈ cells t GPIO_RegDef_t, c.2 = 32 := by
  rw [cells_eq t h4 h8]
  decide

theorem gpio_block_registers_witness :
    stm32f401.sizeofInt = 4 ∧ stm32f401.charBit = 8 ∧
    (cells stm32f401 GPIO_RegDef_t).length = 10 :=
  ⟨rfl, rfl, (gpio_block_registers stm32f401 rfl rfl).2.1⟩

/-! ## Reserved members of the clock-control block -/

/-- C6: with a four-byte `int` placed without padding, RESERVED0 occupies
exactly bytes 0x18..0x1F of `RCC_RegDef_t`, RESERVED1 bytes 0x28..0x2F and
RESERVED2 bytes 0x38..0x3F, eight bytes each; and for each of the three,
every member declared after it moves when it is removed (eight bytes down)
or given any length `n` other than 2 (to `4 * n - 8` bytes further up). -/
theorem rcc_reserved_regions (t : Target) (h4 : t.sizeofInt = 4)
    (hal : t.alignofInt ∣ t.sizeofInt) :
    memberBytes t RCC_RegDef_t "RESERVED0" =
      some [0x18, 0x19, 0x1A, 0x1B, 0x1C, 0x1D, 0x1E, 0x1F] ∧
    memberBytes t RCC_RegDef_t "RESERVED1" =
      some [0x28, 0x29, 0x2A, 0x2B, 0x2C, 0x2D, 0x2E, 0x2F] ∧
    memberBytes t RCC_RegDef_t "RESERVED2" =
      some [0x38, 0x39, 0x3A, 0x3B, 0x3C, 0x3D, 0x3E, 0x3F] ∧
    ∀ r ∈ ["RESERVED0", "RESERVED1", "RESERVED2"],
      ∀ m ∈ membersAfter RCC_RegDef_t r,
        ∃ o, offsetOf t RCC_RegDef_t m = some o ∧
          offsetOf t (removeMember RCC_RegDef_t r) m = some (o - 8) ∧
          offsetOf t (removeMember RCC_RegDef_t r) m ≠ offsetOf t RCC_RegDef_t m ∧
          ∀ n, offsetOf t (resizeMember RCC_RegDef_t r n) m = some (o - 8 + 4 * n) ∧
            (n ≠ 2 →
              offsetOf t (resizeMember RCC_RegDef_t r n) m ≠ offsetOf t RCC_RegDef_t m) := by
  refine ⟨?_, ?_, ?_, ?_⟩
  · rw [memberBytes_eq t h4 hal]; decide
  · rw [memberBytes_eq t h4 hal]; decide
  · rw [memberBytes_eq t h4 hal]; decide
  · intro r hr m hm
    have h0 : membersAfter RCC_RegDef_t "RESERVED0" =
        ["APB1RSTR", "APB2RSTR", "RESERVED1", "AHB1ENR", "AHB2ENR", "RESERVED2",
         "APB1ENR", "APB2ENR"] := by decide
    have h1 : membersAfter RCC_RegDef_t "RESERVED1" =
        ["AHB1ENR", "AHB2ENR", "RESERVED2", "APB1ENR", "APB2ENR"] := by decide
    have h2 : membersAfter RCC_RegDef_t "RESERVED2" = ["APB1ENR", "APB2ENR"] := by decide
    simp only [List.mem_cons, List.mem_singleton, List.not_mem_nil, or_false] at hr
    rcases hr with rfl | rfl | rfl
    · rw [h0] at hm
      simp only [List.mem_cons, List.mem_singleton, List.not_mem_nil, or_false] at hm
      rcases hm with rfl | rfl | rfl | rfl | rfl | rfl | rfl | rfl <;>
        simp [offsetOf, findMember, layout_eq_packed t h4 hal, removeMember, resizeMember,
          RCC_RegDef_t, vint, vintArr, packedFrom, Member.count] <;> omega
    · rw [h1] at hm
      simp only [List.mem_cons, List.mem_singleton, List.not_mem_nil, or_false] at hm
      rcases hm with rfl | rfl | rfl | rfl | rfl <;>
        simp [offsetOf, findMember, layout_eq_packed t h4 hal, removeMember, resizeMember,
          RCC_RegDef_t, vint, vintArr, packedFrom, Member.count] <;> omega
    · rw [h2] at hm
      simp only [List.mem_cons, List.mem_singleton, List.not_mem_nil, or_false] at hm
      rcases hm with rfl | rfl <;>
        simp [offsetOf, findMember, layout_eq_packed t h4 hal, removeMember, resizeMember,
          RCC_RegDef_t, vint, vintArr, packedFrom, Member.count] <;> omega

theorem rcc_reserved_regions_witness :
    stm32f401.sizeofInt = 4 ∧ stm32f401.alignofInt ∣ stm32f401.sizeofInt ∧
    memberBytes stm32f401 RCC_RegDef_t "RESERVED0" =
      some [0x18, 0x19, 0x1A, 0x1B, 0x1C, 0x1D, 0x1E, 0x1F] ∧
    memberBytes stm32f401 RCC_RegDef_t "RESERVED1" =
      some [0x28, 0x29, 0x2A, 0x2B, 0x2C, 0x2D, 0x2E, 0x2F] ∧
    memberBytes stm32f401 RCC_RegDef_t "RESERVED2" =
      some [0x38, 0x39, 0x3A, 0x3B, 0x3C, 0x3D, 0x3E, 0x3F] :=
  ⟨rfl, by decide,
    (rcc_reserved_regions stm32f401 rfl (by decide)).1,
    (rcc_reserved_regions stm32f401 rfl (by decide)).2.1,
    (rcc_reserved_regions stm32f401 rfl (by decide)).2.2.1⟩

/-! ## Tiling of the blocks -/

/-- C9: with a four-byte `int` placed without padding, the members of each
block (reserved arrays included) tile it: offsets strictly increase in
declaration order, every offset is a multiple of four, every member starts
where the one before it ends, the first at 0 and the last ending at `sizeof`,
which is 0x28 for `GPIO_RegDef_t` and 0x48 for `RCC_RegDef_t`. -/
theorem blocks_tile_exactly (t : Target) (h4 : t.sizeofInt = 4)
    (hal : t.alignofInt ∣ t.sizeofInt) :
    Tiles t GPIO_RegDef_t ∧ Tiles t RCC_RegDef_t ∧
    sizeofStruct t GPIO_RegDef_t = 0x28 ∧ sizeofStruct t RCC_RegDef_t = 0x48 := by
  have hg : (layout stm32f401 GPIO_RegDef_t).map Prod.snd =
      [0x00, 0x04, 0x08, 0x0C, 0x10, 0x14, 0x18, 0x1C, 0x20] := by decide
  have hr : (layout stm32f401 RCC_RegDef_t).map Prod.snd =
      [0x00, 0x04, 0x08, 0x0C, 0x10, 0x14, 0x18, 0x20, 0x24, 0x28, 0x30, 0x34, 0x38,
       0x40, 0x44] := by decide
  rw [tiles_iff t h4 hal, tiles_iff t h4 hal, sizeofStruct_eq t h4 hal,
    sizeofStruct_eq t h4 hal]
  unfold Tiles
  refine ⟨⟨by decide, ?_, by decide, by decide, ?_, by decide⟩,
    ⟨by decide, ?_, by decide, by decide, ?_, by decide⟩, by decide, by decide⟩
  · rw [hg]; simp
  · rw [layout_eq_packed stm32f401 rfl (by decide)]
    simp [packedFrom, GPIO_RegDef_t, vint, vintArr, Member.count, sizeofMember, sizeofType,
      stm32f401]
  · rw [hr]; simp
  · rw [layout_eq_packed stm32f401 rfl (by decide)]
    simp [packedFrom, RCC_RegDef_t, vint, vintArr, Member.count, sizeofMember, sizeofType,
      stm32f401]

theorem blocks_tile_exactly_witness :
    stm32f401.sizeofInt = 4 ∧ stm32f401.alignofInt ∣ stm32f401.sizeofInt ∧
    Tiles stm32f401 GPIO_RegDef_t ∧ Tiles stm32f401 RCC_RegDef_t ∧
    sizeofStruct stm32f401 GPIO_RegDef_t = 0x28 ∧
    sizeofStruct stm32f401 RCC_RegDef_t = 0x48 :=
  ⟨rfl, by decide, blocks_tile_exactly stm32f401 rfl (by decide)⟩

/-! ## Distinct registers have distinct addresses -/

/-- C8: with a four-byte `int` placed without padding, the views GPIOA,
GPIOB and GPIOC span 0x28 bytes each and RCC spans 0x48 bytes, the four spans
are pairwise disjoint, every register of a view lies inside the span of its
view, and no address belongs to two different registers: equal addresses
mean the same view and the same register. -/
theorem register_addresses_injective (t : Target) (h4 : t.sizeofInt = 4)
    (hal : t.alignofInt ∣ t.sizeofInt) :
    sizeofStruct t GPIO_RegDef_t = 0x28 ∧ sizeofStruct t RCC_RegDef_t = 0x48 ∧
    views.Pairwise (fun p q => disjointRanges (viewRange t p) (viewRange t q) = true) ∧
    (∀ p ∈ views, ∀ r a, regAddr t p r = some a →
      (viewRange t p).1 ≤ a ∧ a + 4 ≤ (viewRange t p).2) ∧
    ∀ p ∈ views, ∀ q ∈ views, ∀ r r2 a,
      regAddr t p r = some a → regAddr t q r2 = some a → p = q ∧ r = r2 := by
  have hin : ∀ x ∈ allRegs stm32f401,
      (regAddr stm32f401 x.1 x.2).all (fun a =>
        decide ((viewRange stm32f401 x.1).1 ≤ a ∧ a + 4 ≤ (viewRange stm32f401 x.1).2))
        = true := by decide
  have hnd : ((allRegs stm32f401).map fun x => regAddr stm32f401 x.1 x.2).Nodup := by
    decide
  refine ⟨?_, ?_, ?_, ?_, ?_⟩
  · rw [sizeofStruct_eq t h4 hal]; decide
  · rw [sizeofStruct_eq t h4 hal]; decide
  · simp only [viewRange, sizeofStruct_eq t h4 hal]; decide
  · intro p hp r a h
    rw [regAddr_eq t h4 hal] at h
    have := hin (p, r) (mem_allRegs stm32f401 p hp r a h)
    simp only [viewRange, sizeofStruct_eq t h4 hal]
    simp only [h, Option.all_some, decide_eq_true_eq, viewRange] at this
    exact this
  · intro p hp q hq r r2 a h h2
    rw [regAddr_eq t h4 hal] at h h2
    have hx := mem_allRegs stm32f401 p hp r a h
    have hy := mem_allRegs stm32f401 q hq r2 a h2
    have := List.inj_on_of_nodup_map hnd hx hy (by simp only [h, h2])
    exact ⟨congrArg Prod.fst this, congrArg Prod.snd this⟩

theorem register_addresses_injective_witness :
    stm32f401.sizeofInt = 4 ∧ stm32f401.alignofInt ∣ stm32f401.sizeofInt ∧
    sizeofStruct stm32f401 GPIO_RegDef_t = 0x28 ∧
    sizeofStruct stm32f401 RCC_RegDef_t = 0x48 ∧
    views.Pairwise (fun p q =>
      disjointRanges (viewRange stm32f401 p) (viewRange stm32f401 q) = true) :=
  ⟨rfl, by decide,
    (register_addresses_injective stm32f401 rfl (by decide)).1,
    (register_addresses_injective stm32f401 rfl (by decide)).2.1,
    (register_addresses_injective stm32f401 rfl (by decide)).2.2.1⟩

end Stm32f401xx
